import Mathlib

/-!
Verification of a small Rust parser-combinator library (`src/main.rs`).

Embedding choices:
* A Rust `&str` is a valid UTF-8 byte slice; we model it as a `List Char`
  (its sequence of Unicode scalar values) and keep byte-level indexing
  explicit through `utf8Len`, `byteTake` and `byteDrop`, which return
  `none` exactly when the corresponding Rust slice operation would be out
  of range or not on a character boundary (`str::get` returns `None`
  there; direct indexing `&s[i..]` panics).
* `ParserOutput α` mirrors `Result<(&'a str, Output), &'a str>`:
  `Except.ok (remainder, value)` or `Except.error input`.
* Rust's Unicode classification functions `char::is_alphabetic` and
  `char::is_alphanumeric` are host-provided tables; `identifier` is
  parameterised over the two predicates, and concrete instances use
  Lean's `Char.isAlpha` / `Char.isAlphanum`, which agree with Rust on the
  characters appearing in the concrete test inputs.
-/

namespace ParserLib

/-- Total UTF-8 byte length of a character sequence (`str::len` in Rust). -/
def utf8Len : List Char → Nat
  | [] => 0
  | c :: cs => c.utf8Size + utf8Len cs

/-- Drop `n` bytes from the front of a string viewed as a char sequence.
`some` exactly when `n` lies on a character boundary and within range,
mirroring when Rust's `&s[n..]` does not panic. -/
def byteDrop : Nat → List Char → Option (List Char)
  | n, [] => if n = 0 then some [] else none
  | n, c :: cs =>
    if n = 0 then some (c :: cs)
    else if n < c.utf8Size then none
    else byteDrop (n - c.utf8Size) cs

/-- Take the first `n` bytes of a string viewed as a char sequence.
`some` exactly when `n` lies on a character boundary and within range,
mirroring Rust's `s.get(0..n)`. -/
def byteTake : Nat → List Char → Option (List Char)
  | n, [] => if n = 0 then some [] else none
  | n, c :: cs =>
    if n = 0 then some []
    else if n < c.utf8Size then none
    else (byteTake (n - c.utf8Size) cs).map (fun t => c :: t)

/-- `type ParserOutput<'a, Output> = Result<(&'a str, Output), &'a str>;` -/
abbrev ParserOutput (α : Type) := Except (List Char) (List Char × α)

/-- The `Parser` trait: anything with `parse(&self, input: &'a str) ->
ParserOutput<'a, Output>`; in the Rust code every parser is a function of
this shape (the blanket impl), so the shallow embedding is the function
type itself. -/
abbrev Parser (α : Type) := List Char → ParserOutput α

/-- `fn take_first_char(input: &str) -> ParserOutput<char>`.
On `Some(c)` the code returns `Ok((&input[c.len_utf8()..], c))`; the slice
is modelled by `byteDrop c.utf8Size input`, whose `none` branch models the
slice panicking (proved unreachable below). -/
def take_first_char (input : List Char) : ParserOutput Char :=
  match input with
  | [] => Except.error input
  | c :: cs =>
    match byteDrop c.utf8Size (c :: cs) with
    | some rest => Except.ok (rest, c)
    | none => Except.error input

/-- `fn match_literal(expected: &'static str) -> impl Fn(&str) -> ParserOutput<()>`.
`input.get(0..expected.len())` is `byteTake (utf8Len expected) input`;
on `Some(next) if next == expected` the code returns
`Ok((&input[expected.len()..], ()))`, whose slice is `byteDrop`, with the
`none` branch modelling the panic (proved unreachable below). -/
def match_literal (expected : List Char) : Parser Unit := fun input =>
  match byteTake (utf8Len expected) input with
  | some next =>
    if next = expected then
      match byteDrop (utf8Len expected) input with
      | some rest => Except.ok (rest, ())
      | none => Except.error input
    else Except.error input
  | none => Except.error input

/-- `fn identifier(input: &str) -> ParserOutput<String>`, parameterised by
the host classification functions `char::is_alphabetic` (`isAl`) and
`char::is_alphanumeric` (`isAn`). The first char must satisfy `isAl`;
then the while-loop pushes chars satisfying `isAn next || next == '-'`
and breaks at the first that does not, i.e. `matched` is the leading char
followed by `List.takeWhile` of the rest. `next_index = matched.len()` is
the byte length `utf8Len matched`, and `&input[next_index..]` is
`byteDrop`, with the `none` branch modelling the panic (proved
unreachable below). -/
def identifier (isAl isAn : Char → Bool) (input : List Char) : ParserOutput (List Char) :=
  match input with
  | [] => Except.error input
  | c :: cs =>
    if isAl c then
      let matched := c :: cs.takeWhile (fun next => isAn next || next = '-')
      match byteDrop (utf8Len matched) input with
      | some rest => Except.ok (rest, matched)
      | none => Except.error input
    else Except.error input

/-- `fn pair(parser1, parser2) -> impl Parser<'a, (R1, R2)>`. -/
def pair (parser1 : Parser α) (parser2 : Parser β) : Parser (α × β) := fun input =>
  match parser1 input with
  | Except.ok (next_input, result1) =>
    match parser2 next_input with
    | Except.ok (final_input, result2) => Except.ok (final_input, (result1, result2))
    | Except.error err => Except.error err
  | Except.error err => Except.error err

/-- `fn map(parser, map_fn) -> impl Parser<'a, B>`: maps over the `Ok`
side of the `Result`, transforming only the value and keeping the
remainder. -/
def map (parser : Parser α) (map_fn : α → β) : Parser β := fun input =>
  (parser input).map (fun x => (x.1, map_fn x.2))

/-- `fn left(parser1, parser2) -> impl Parser<'a, R1>`:
`map(pair(parser1, parser2), |(left, _right)| left)`. -/
def left (parser1 : Parser α) (parser2 : Parser β) : Parser α :=
  map (pair parser1 parser2) (fun x => x.1)

/-- `fn identity_combinator(parser) -> impl Parser<'a, O>`: wraps a parser
without altering behaviour. -/
def identity_combinator (p : Parser α) : Parser α := fun input => p input

/-- The closure of the library: the primitive parsers and everything built
from them with `pair`, `map` and `left`. -/
inductive BuiltParser : {α : Type} → Parser α → Prop
  | tfc : BuiltParser take_first_char
  | lit (L : List Char) : BuiltParser (match_literal L)
  | ident (isAl isAn : Char → Bool) : BuiltParser (identifier isAl isAn)
  | pair {α β : Type} {p1 : Parser α} {p2 : Parser β} :
      BuiltParser p1 → BuiltParser p2 → BuiltParser (pair p1 p2)
  | map {α β : Type} {p : Parser α} (f : α → β) :
      BuiltParser p → BuiltParser (map p f)
  | left {α β : Type} {p1 : Parser α} {p2 : Parser β} :
      BuiltParser p1 → BuiltParser p2 → BuiltParser (left p1 p2)

/-- A parser whose successful remainder is always a suffix of its input,
of byte length no greater than the input's. -/
def RemainderIsSuffix (p : Parser α) : Prop :=
  ∀ S R v, p S = Except.ok (R, v) → (∃ pre, pre ++ R = S) ∧ R.length ≤ S.length

example : take_first_char ['h', 'e', 'y'] = Except.ok (['e', 'y'], 'h') := rfl
example : take_first_char ['😎', 'x'] = Except.ok (['x'], '😎') := rfl
example : match_literal ['<'] ['<', 'a', '>'] = Except.ok (['a', '>'], ()) := rfl
example : match_literal ['<'] ['f', 'o', 'o'] = Except.error ['f', 'o', 'o'] := rfl
example : identifier Char.isAlpha Char.isAlphanum ['n', 'a', 'm', 'e', '-', '😎']
    = Except.ok (['😎'], ['n', 'a', 'm', 'e', '-']) := rfl
example : identifier Char.isAlpha Char.isAlphanum ['!', 'n'] = Except.error ['!', 'n'] := rfl
example : left take_first_char take_first_char ['h', 'e', 'l', 'l', 'o']
    = Except.ok (['l', 'l', 'o'], 'h') := rfl

/-! ### Byte-slicing lemmas -/

theorem byteDrop_zero (l : List Char) : byteDrop 0 l = some l := by
  cases l <;> simp [byteDrop]

theorem byteDrop_append (a b : List Char) : byteDrop (utf8Len a) (a ++ b) = some b := by
  induction a with
  | nil => simpa [utf8Len] using byteDrop_zero b
  | cons c cs ih =>
    have hc := Char.utf8Size_pos c
    have hsub : c.utf8Size + utf8Len cs - c.utf8Size = utf8Len cs := by omega
    simp only [utf8Len, List.cons_append, byteDrop]
    rw [if_neg (by omega), if_neg (by omega), hsub]
    exact ih

theorem byteTake_append (a b : List Char) : byteTake (utf8Len a) (a ++ b) = some a := by
  induction a with
  | nil => cases b <;> simp [byteTake, utf8Len]
  | cons c cs ih =>
    have hc := Char.utf8Size_pos c
    have hsub : c.utf8Size + utf8Len cs - c.utf8Size = utf8Len cs := by omega
    simp only [utf8Len, List.cons_append, byteTake]
    rw [if_neg (by omega), if_neg (by omega), hsub]
    have h2 : byteTake (utf8Len cs) (cs.append b) = some cs := ih
    rw [h2]
    rfl

theorem byteTake_some (S : List Char) :
    ∀ n a, byteTake n S = some a → ∃ b, S = a ++ b ∧ utf8Len a = n := by
  induction S with
  | nil =>
    intro n a h
    by_cases hn : n = 0
    · subst hn
      simp [byteTake] at h
      subst h
      exact ⟨[], by simp [utf8Len]⟩
    · simp [byteTake, hn] at h
  | cons c cs ih =>
    intro n a h
    by_cases hn : n = 0
    · subst hn
      simp [byteTake] at h
      subst h
      exact ⟨c :: cs, by simp [utf8Len]⟩
    · by_cases hlt : n < c.utf8Size
      · simp [byteTake, hn, hlt] at h
      · simp [byteTake, hn, hlt] at h
        obtain ⟨t, ht, rfl⟩ := h
        obtain ⟨b, hb, hlen⟩ := ih _ _ ht
        refine ⟨b, by simp [hb], ?_⟩
        have hc := Char.utf8Size_pos c
        simp only [utf8Len, hlen]
        omega

/-! ### Characterisations of the primitive parsers -/

theorem take_first_char_cons (c : Char) (cs : List Char) :
    take_first_char (c :: cs) = Except.ok (cs, c) := by
  have h : byteDrop c.utf8Size (c :: cs) = some cs := by
    simpa [utf8Len] using byteDrop_append [c] cs
  simp [take_first_char, h]

theorem match_literal_of_append (L rest : List Char) :
    match_literal L (L ++ rest) = Except.ok (rest, ()) := by
  simp [match_literal, byteTake_append, byteDrop_append]

theorem match_literal_ok_inv (L S R : List Char) (v : Unit)
    (h : match_literal L S = Except.ok (R, v)) : S = L ++ R := by
  cases htake : byteTake (utf8Len L) S with
  | none => simp [match_literal, htake] at h
  | some next =>
    by_cases he : next = L
    · subst he
      obtain ⟨b, hb, hlen⟩ := byteTake_some S _ _ htake
      have hdrop : byteDrop (utf8Len next) S = some b := by
        rw [hb, hlen]
        exact byteDrop_append _ _
      simp [match_literal, htake, hdrop] at h
      rw [hb, h]
    · simp [match_literal, htake, he] at h

theorem match_literal_err (L S : List Char) (hnp : ∀ rest, S ≠ L ++ rest) :
    match_literal L S = Except.error S := by
  cases htake : byteTake (utf8Len L) S with
  | none => simp [match_literal, htake]
  | some next =>
    by_cases he : next = L
    · subst he
      obtain ⟨b, hb, _⟩ := byteTake_some S _ _ htake
      exact absurd hb (hnp b)
    · simp [match_literal, htake, he]

theorem identifier_cons_alpha (isAl isAn : Char → Bool) (c : Char) (cs : List Char)
    (h : isAl c = true) :
    identifier isAl isAn (c :: cs)
      = Except.ok (cs.dropWhile (fun next => isAn next || next = '-'),
                   c :: cs.takeWhile (fun next => isAn next || next = '-')) := by
  have hsplit : c :: cs
      = (c :: cs.takeWhile (fun next => isAn next || next = '-'))
        ++ cs.dropWhile (fun next => isAn next || next = '-') := by
    simp [List.takeWhile_append_dropWhile]
  have hdrop : byteDrop
      (utf8Len (c :: cs.takeWhile (fun next => isAn next || next = '-'))) (c :: cs)
      = some (cs.dropWhile (fun next => isAn next || next = '-')) := by
    conv_lhs => rw [hsplit]
    exact byteDrop_append _ _
  simp [identifier, h, hdrop]

theorem identifier_cons_not_alpha (isAl isAn : Char → Bool) (c : Char) (cs : List Char)
    (h : isAl c = false) :
    identifier isAl isAn (c :: cs) = Except.error (c :: cs) := by
  simp [identifier, h]

theorem identifier_ok_inv (isAl isAn : Char → Bool) (S R v : List Char)
    (h : identifier isAl isAn S = Except.ok (R, v)) : v ++ R = S := by
  cases S with
  | nil => exact Except.noConfusion h
  | cons c cs =>
    cases hal : isAl c with
    | false =>
      rw [identifier_cons_not_alpha isAl isAn c cs hal] at h
      exact Except.noConfusion h
    | true =>
      rw [identifier_cons_alpha isAl isAn c cs hal] at h
      simp only [Except.ok.injEq, Prod.mk.injEq] at h
      rw [← h.1, ← h.2]
      simp [List.takeWhile_append_dropWhile]

theorem identifier_err_inv (isAl isAn : Char → Bool) (S e : List Char)
    (h : identifier isAl isAn S = Except.error e) : e = S := by
  cases S with
  | nil => simpa [identifier] using h.symm
  | cons c cs =>
    cases hal : isAl c with
    | false =>
      rw [identifier_cons_not_alpha isAl isAn c cs hal] at h
      simpa using h.symm
    | true =>
      rw [identifier_cons_alpha isAl isAn c cs hal] at h
      exact Except.noConfusion h

/-! ### Characterisations of the combinators -/

theorem pair_err1 {p1 : Parser α} {p2 : Parser β} {S e : List Char}
    (h : p1 S = Except.error e) : pair p1 p2 S = Except.error e := by
  simp [pair, h]

theorem pair_err2 {p1 : Parser α} {p2 : Parser β} {S R1 e : List Char} {v1 : α}
    (h1 : p1 S = Except.ok (R1, v1)) (h2 : p2 R1 = Except.error e) :
    pair p1 p2 S = Except.error e := by
  simp [pair, h1, h2]

theorem pair_ok {p1 : Parser α} {p2 : Parser β} {S R1 R2 : List Char} {v1 : α} {v2 : β}
    (h1 : p1 S = Except.ok (R1, v1)) (h2 : p2 R1 = Except.ok (R2, v2)) :
    pair p1 p2 S = Except.ok (R2, (v1, v2)) := by
  simp [pair, h1, h2]

theorem pair_ok_inv {p1 : Parser α} {p2 : Parser β} {S R : List Char} {v : α × β}
    (h : pair p1 p2 S = Except.ok (R, v)) :
    ∃ R1, p1 S = Except.ok (R1, v.1) ∧ p2 R1 = Except.ok (R, v.2) := by
  cases h1 : p1 S with
  | error e => simp [pair, h1] at h
  | ok res1 =>
    obtain ⟨R1, v1⟩ := res1
    cases h2 : p2 R1 with
    | error e => simp [pair, h1, h2] at h
    | ok res2 =>
      obtain ⟨R2, v2⟩ := res2
      simp only [pair, h1, h2, Except.ok.injEq, Prod.mk.injEq] at h
      exact ⟨R1, by simp [← h.2, h.1], by simp [← h.2, h.1, h2]⟩

theorem map_err {p : Parser α} {f : α → β} {S e : List Char}
    (h : p S = Except.error e) : map p f S = Except.error e := by
  simp [map, h, Except.map]

theorem map_ok {p : Parser α} {f : α → β} {S R : List Char} {v : α}
    (h : p S = Except.ok (R, v)) : map p f S = Except.ok (R, f v) := by
  simp [map, h, Except.map]

theorem map_err_iff (p : Parser α) (f : α → β) (S e : List Char) :
    map p f S = Except.error e ↔ p S = Except.error e := by
  cases h : p S with
  | error e2 => simp [map, h, Except.map]
  | ok res => simp [map, h, Except.map]

theorem map_ok_inv {p : Parser α} {f : α → β} {S R : List Char} {v : β}
    (h : map p f S = Except.ok (R, v)) :
    ∃ w, p S = Except.ok (R, w) ∧ v = f w := by
  cases hp : p S with
  | error e => simp [map, hp, Except.map] at h
  | ok res =>
    obtain ⟨R1, w⟩ := res
    simp only [map, hp, Except.map, Except.ok.injEq, Prod.mk.injEq] at h
    exact ⟨w, by rw [h.1], h.2.symm⟩

theorem map_id_eq (p : Parser α) : map p id = p := by
  funext input
  cases h : p input <;> simp [map, h, Except.map]

theorem map_comp_eq (p : Parser α) (f : α → β) (g : β → γ) :
    map (map p f) g = map p (g ∘ f) := by
  funext input
  cases h : p input <;> simp [map, h, Except.map]

theorem left_ok {p1 : Parser α} {p2 : Parser β} {S R : List Char} {v1 : α} {v2 : β}
    (h : pair p1 p2 S = Except.ok (R, (v1, v2))) : left p1 p2 S = Except.ok (R, v1) := by
  simpa [left] using map_ok (f := fun x : α × β => x.1) h

theorem left_err {p1 : Parser α} {p2 : Parser β} {S e : List Char}
    (h : pair p1 p2 S = Except.error e) : left p1 p2 S = Except.error e := by
  simpa [left] using map_err (f := fun x : α × β => x.1) h

/-! ### The remainder-is-a-suffix invariant -/

theorem take_first_char_remainderIsSuffix : RemainderIsSuffix take_first_char := by
  intro S R v h
  cases S with
  | nil => exact Except.noConfusion h
  | cons c cs =>
    rw [take_first_char_cons] at h
    simp only [Except.ok.injEq, Prod.mk.injEq] at h
    refine ⟨⟨[c], by simp [h.1]⟩, ?_⟩
    rw [← h.1]
    simp

theorem match_literal_remainderIsSuffix (L : List Char) :
    RemainderIsSuffix (match_literal L) := by
  intro S R v h
  have hS := match_literal_ok_inv L S R v h
  exact ⟨⟨L, hS.symm⟩, by rw [hS]; simp⟩

theorem identifier_remainderIsSuffix (isAl isAn : Char → Bool) :
    RemainderIsSuffix (identifier isAl isAn) := by
  intro S R v h
  have hS := identifier_ok_inv isAl isAn S R v h
  exact ⟨⟨v, hS⟩, by rw [← hS]; simp⟩

theorem pair_remainderIsSuffix {p1 : Parser α} {p2 : Parser β}
    (h1 : RemainderIsSuffix p1) (h2 : RemainderIsSuffix p2) :
    RemainderIsSuffix (pair p1 p2) := by
  intro S R v h
  obtain ⟨R1, hp1, hp2⟩ := pair_ok_inv h
  obtain ⟨⟨a1, ha1⟩, hl1⟩ := h1 S R1 v.1 hp1
  obtain ⟨⟨a2, ha2⟩, hl2⟩ := h2 R1 R v.2 hp2
  exact ⟨⟨a1 ++ a2, by rw [List.append_assoc, ha2, ha1]⟩, le_trans hl2 hl1⟩

theorem map_remainderIsSuffix {p : Parser α} {f : α → β}
    (h : RemainderIsSuffix p) : RemainderIsSuffix (map p f) := by
  intro S R v hm
  obtain ⟨w, hp, _⟩ := map_ok_inv hm
  exact h S R w hp

theorem left_remainderIsSuffix {p1 : Parser α} {p2 : Parser β}
    (h1 : RemainderIsSuffix p1) (h2 : RemainderIsSuffix p2) :
    RemainderIsSuffix (left p1 p2) := by
  unfold left
  exact map_remainderIsSuffix (pair_remainderIsSuffix h1 h2)

/-! ### The claims -/

/-- C1: `identifier` fails returning the input unchanged iff the input is
empty or its first character is not alphabetic; otherwise it succeeds, the
value being the maximal prefix run — the alphabetic first character
followed by the longest run of characters that are alphanumeric or a
dash — and every successful value is non-empty. -/
theorem identifier_spec (isAl isAn : Char → Bool) (S : List Char) :
    (identifier isAl isAn S = Except.error S ↔
      S = [] ∨ ∃ c cs, S = c :: cs ∧ isAl c = false) ∧
    (∀ e, identifier isAl isAn S = Except.error e → e = S) ∧
    (∀ c cs, S = c :: cs → isAl c = true →
      identifier isAl isAn S
        = Except.ok (cs.dropWhile (fun next => isAn next || next = '-'),
                     c :: cs.takeWhile (fun next => isAn next || next = '-'))) ∧
    (∀ R v, identifier isAl isAn S = Except.ok (R, v) → v ≠ []) := by
  refine ⟨⟨?_, ?_⟩, identifier_err_inv isAl isAn S, ?_, ?_⟩
  · intro h
    cases S with
    | nil => exact Or.inl rfl
    | cons c cs =>
      cases hal : isAl c with
      | false => exact Or.inr ⟨c, cs, rfl, hal⟩
      | true =>
        rw [identifier_cons_alpha isAl isAn c cs hal] at h
        exact Except.noConfusion h
  · intro h
    rcases h with rfl | ⟨c, cs, rfl, hal⟩
    · rfl
    · exact identifier_cons_not_alpha isAl isAn c cs hal
  · intro c cs hS hal
    subst hS
    exact identifier_cons_alpha isAl isAn c cs hal
  · intro R v h
    cases S with
    | nil => exact Except.noConfusion h
    | cons c cs =>
      cases hal : isAl c with
      | false =>
        rw [identifier_cons_not_alpha isAl isAn c cs hal] at h
        exact Except.noConfusion h
      | true =>
        rw [identifier_cons_alpha isAl isAn c cs hal] at h
        simp only [Except.ok.injEq, Prod.mk.injEq] at h
        rw [← h.2]
        simp

/-- Witness for C1 at a concrete input: `identifier` on `"ab!c"` succeeds
with value `"ab"` and remainder `"!c"`. -/
theorem identifier_spec_witness :
    identifier Char.isAlpha Char.isAlphanum ['a', 'b', '!', 'c']
      = Except.ok (['!', 'c'], ['a', 'b']) :=
  (identifier_spec Char.isAlpha Char.isAlphanum ['a', 'b', '!', 'c']).2.2.1 'a'
    ['b', '!', 'c'] rfl rfl

/-- C2: `match_literal L` on `S` succeeds with unit value and the
remainder obtained by removing the first `utf8Len L` bytes of `S` exactly
when `S` starts with `L`; in every other case it fails returning `S`
unchanged. -/
theorem match_literal_spec (L S : List Char) :
    (∀ rest, S = L ++ rest → match_literal L S = Except.ok (rest, ())) ∧
    (∀ R v, match_literal L S = Except.ok (R, v) → S = L ++ R) ∧
    (∀ R v, match_literal L S = Except.ok (R, v) → byteDrop (utf8Len L) S = some R) ∧
    ((∀ rest, S ≠ L ++ rest) → match_literal L S = Except.error S) := by
  refine ⟨?_, match_literal_ok_inv L S, ?_, match_literal_err L S⟩
  · intro rest h
    subst h
    exact match_literal_of_append L rest
  · intro R v h
    rw [match_literal_ok_inv L S R v h]
    exact byteDrop_append L R

/-- Witness for C2 at a concrete input: `match_literal "<"` on `"<name>"`
succeeds with unit value and remainder `"name>"`. -/
theorem match_literal_spec_witness :
    match_literal ['<'] ['<', 'n', 'a', 'm', 'e', '>']
      = Except.ok (['n', 'a', 'm', 'e', '>'], ()) :=
  (match_literal_spec ['<'] ['<', 'n', 'a', 'm', 'e', '>']).1 ['n', 'a', 'm', 'e', '>'] rfl

/-- C3: `pair p1 p2` returns `p1`'s failure when `p1` fails, `p2`'s
failure on `p1`'s remainder when `p2` fails there, and on double success
the final remainder paired with the 2-tuple of both values in order. -/
theorem pair_spec (p1 : Parser α) (p2 : Parser β) (S : List Char) :
    (∀ e, p1 S = Except.error e → pair p1 p2 S = Except.error e) ∧
    (∀ R1 v1 e, p1 S = Except.ok (R1, v1) → p2 R1 = Except.error e →
      pair p1 p2 S = Except.error e) ∧
    (∀ R1 v1 R2 v2, p1 S = Except.ok (R1, v1) → p2 R1 = Except.ok (R2, v2) →
      pair p1 p2 S = Except.ok (R2, (v1, v2))) :=
  ⟨fun _ h => pair_err1 h,
   fun _ _ _ h1 h2 => pair_err2 h1 h2,
   fun _ _ _ _ h1 h2 => pair_ok h1 h2⟩

/-- Witness for C3 at a concrete input: the tag opener
`pair (match_literal "<") identifier` on `"<hello/>"` succeeds with
remainder `"/>"` and value `((), "hello")`. -/
theorem pair_spec_witness :
    pair (match_literal ['<']) (identifier Char.isAlpha Char.isAlphanum)
      ['<', 'h', 'e', 'l', 'l', 'o', '/', '>']
      = Except.ok (['/', '>'], ((), ['h', 'e', 'l', 'l', 'o'])) :=
  (pair_spec (match_literal ['<']) (identifier Char.isAlpha Char.isAlphanum)
      ['<', 'h', 'e', 'l', 'l', 'o', '/', '>']).2.2
    ['h', 'e', 'l', 'l', 'o', '/', '>'] () ['/', '>'] ['h', 'e', 'l', 'l', 'o'] rfl rfl

/-- C4: whenever a sub-parser fails, the built parser returns exactly that
sub-parser's failure value unchanged: `pair` fails with `p1`'s failure
when `p1` fails (and with `p2`'s when `p2` fails on the remainder), and
`map` and `left` propagate failures identically, with no recovery. -/
theorem failure_propagation (p1 : Parser α) (p2 : Parser β) (f : α → γ)
    (S e : List Char) :
    (p1 S = Except.error e →
      pair p1 p2 S = Except.error e ∧ map p1 f S = Except.error e ∧
      left p1 p2 S = Except.error e) ∧
    (∀ R1 v1, p1 S = Except.ok (R1, v1) → p2 R1 = Except.error e →
      pair p1 p2 S = Except.error e ∧ left p1 p2 S = Except.error e) := by
  constructor
  · intro h
    exact ⟨pair_err1 h, map_err h, left_err (pair_err1 h)⟩
  · intro R1 v1 h1 h2
    exact ⟨pair_err2 h1 h2, left_err (pair_err2 h1 h2)⟩

/-- Witness for C4 at a concrete input: when `match_literal "<"` fails on
`"foo"`, `pair`, `map` and `left` all fail with that same value. -/
theorem failure_propagation_witness :
    pair (match_literal ['<']) (identifier Char.isAlpha Char.isAlphanum) ['f', 'o', 'o']
        = Except.error ['f', 'o', 'o']
      ∧ map (match_literal ['<']) (fun _ => 0) ['f', 'o', 'o'] = Except.error ['f', 'o', 'o']
      ∧ left (match_literal ['<']) (identifier Char.isAlpha Char.isAlphanum) ['f', 'o', 'o']
        = Except.error ['f', 'o', 'o'] :=
  (failure_propagation (match_literal ['<']) (identifier Char.isAlpha Char.isAlphanum)
      (fun _ => 0) ['f', 'o', 'o'] ['f', 'o', 'o']).1 rfl

/-- C5: `map p f` fails exactly when `p` fails, with the identical failure
value; on success it keeps `p`'s remainder and applies `f` to the value;
and the functor laws hold: mapping the identity is the identity and
mapping twice is mapping the composite. -/
theorem map_spec (p : Parser α) (f : α → β) (g : β → γ) (S : List Char) :
    (∀ e, map p f S = Except.error e ↔ p S = Except.error e) ∧
    (∀ R v, p S = Except.ok (R, v) → map p f S = Except.ok (R, f v)) ∧
    map p id = p ∧
    map (map p f) g = map p (g ∘ f) :=
  ⟨fun e => map_err_iff p f S e,
   fun _ _ h => map_ok h,
   map_id_eq p,
   map_comp_eq p f g⟩

/-- Witness for C5 at a concrete input: mapping `Char.toNat` over
`take_first_char` on `"ab"` succeeds with remainder `"b"` and value 97. -/
theorem map_spec_witness :
    map take_first_char Char.toNat ['a', 'b'] = Except.ok (['b'], 97) :=
  (map_spec take_first_char Char.toNat Nat.succ ['a', 'b']).2.1 ['b'] 'a' rfl

/-- C6: `left p1 p2` succeeds exactly when `pair p1 p2` succeeds, yielding
`p1`'s value with the remainder left after both parsers consumed input,
and fails with `pair`'s failure value; in particular
`left take_first_char take_first_char` on `"hello"` succeeds with
remainder `"llo"` and value `'h'`. -/
theorem left_spec (p1 : Parser α) (p2 : Parser β) (S : List Char) :
    (∀ R v1 v2, pair p1 p2 S = Except.ok (R, (v1, v2)) →
      left p1 p2 S = Except.ok (R, v1)) ∧
    (∀ e, pair p1 p2 S = Except.error e → left p1 p2 S = Except.error e) ∧
    left take_first_char take_first_char ['h', 'e', 'l', 'l', 'o']
      = Except.ok (['l', 'l', 'o'], 'h') :=
  ⟨fun _ _ _ h => left_ok h, fun _ h => left_err h, rfl⟩

/-- Witness for C6 at a concrete input: `left (match_literal "<") identifier`
on `"<id>"` succeeds with remainder `">"` and the unit value of the first
parser. -/
theorem left_spec_witness :
    left (match_literal ['<']) (identifier Char.isAlpha Char.isAlphanum)
      ['<', 'i', 'd', '>'] = Except.ok (['>'], ()) :=
  (left_spec (match_literal ['<']) (identifier Char.isAlpha Char.isAlphanum)
      ['<', 'i', 'd', '>']).1 ['>'] () ['i', 'd'] rfl

/-- C7: `take_first_char` fails returning the (empty) input unchanged iff
the input is empty; otherwise it succeeds with the first character as the
value and the remainder starting right after it, the byte advance being
the character's full UTF-8 width. -/
theorem take_first_char_spec (S : List Char) :
    (S = [] → take_first_char S = Except.error S) ∧
    (∀ c cs, S = c :: cs →
      take_first_char S = Except.ok (cs, c) ∧ byteDrop c.utf8Size S = some cs) := by
  constructor
  · intro h
    subst h
    rfl
  · intro c cs h
    subst h
    refine ⟨take_first_char_cons c cs, ?_⟩
    simpa [utf8Len] using byteDrop_append [c] cs

/-- Witness for C7 at a concrete input: on `"😎x"` the parser takes the
four-byte character `'😎'` whole, leaving `"x"`. -/
theorem take_first_char_spec_witness :
    take_first_char ['😎', 'x'] = Except.ok (['x'], '😎')
      ∧ byteDrop (Char.utf8Size '😎') ['😎', 'x'] = some ['x'] :=
  (take_first_char_spec ['😎', 'x']).2 '😎' ['x'] rfl

/-- C8: whenever `identifier` succeeds, the value concatenated with the
remainder reconstructs the consumed input exactly, also when a multi-byte
character stops the scan: on `"name-😎"` it succeeds with value `"name-"`
and remainder `"😎"`. -/
theorem identifier_roundtrip (isAl isAn : Char → Bool) (S : List Char) :
    (∀ R v, identifier isAl isAn S = Except.ok (R, v) → v ++ R = S) ∧
    identifier Char.isAlpha Char.isAlphanum ['n', 'a', 'm', 'e', '-', '😎']
      = Except.ok (['😎'], ['n', 'a', 'm', 'e', '-']) :=
  ⟨fun R v h => identifier_ok_inv isAl isAn S R v h, rfl⟩

/-- Witness for C8 at a concrete input: the round-trip on `"name-😎"`. -/
theorem identifier_roundtrip_witness :
    ['n', 'a', 'm', 'e', '-'] ++ ['😎'] = ['n', 'a', 'm', 'e', '-', '😎'] :=
  (identifier_roundtrip Char.isAlpha Char.isAlphanum
      ['n', 'a', 'm', 'e', '-', '😎']).1 ['😎'] ['n', 'a', 'm', 'e', '-'] rfl

/-- C9: every parser of the library — the primitives and everything built
from them with `pair`, `map` and `left` — returns on success a remainder
that is a suffix of its input, whose length never exceeds the input's. -/
theorem remainder_suffix_invariant (α : Type) (p : Parser α)
    (hb : BuiltParser p) : RemainderIsSuffix p := by
  induction hb with
  | tfc => exact take_first_char_remainderIsSuffix
  | lit L => exact match_literal_remainderIsSuffix L
  | ident isAl isAn => exact identifier_remainderIsSuffix isAl isAn
  | pair _ _ ih1 ih2 => exact pair_remainderIsSuffix ih1 ih2
  | map _ _ ih => exact map_remainderIsSuffix ih
  | left _ _ ih1 ih2 => exact left_remainderIsSuffix ih1 ih2

/-- Witness for C9 at a concrete input: `take_first_char` on `"hello"`
leaves the remainder `"ello"`, which is no longer than the input. -/
theorem remainder_suffix_invariant_witness :
    (['e', 'l', 'l', 'o'] : List Char).length
      ≤ (['h', 'e', 'l', 'l', 'o'] : List Char).length :=
  (remainder_suffix_invariant Char take_first_char BuiltParser.tfc
    ['h', 'e', 'l', 'l', 'o'] ['e', 'l', 'l', 'o'] 'h' rfl).2

/-- C10: none of the primitive parsers can panic from byte slicing: the
index `c.len_utf8()` used by `take_first_char` is always a character
boundary; `match_literal`'s second slice index is valid whenever `get`
returned `Some`; and the byte length of `identifier`'s accumulated value
equals the byte length of the consumed prefix and is always a valid
boundary, even on multi-byte inputs. -/
theorem no_slice_panic (S : List Char) :
    (∀ c cs, S = c :: cs → byteDrop c.utf8Size S = some cs) ∧
    (∀ n next, byteTake n S = some next →
      ∃ rest, byteDrop n S = some rest ∧ S = next ++ rest) ∧
    (∀ isAn : Char → Bool, ∀ c cs, S = c :: cs →
      byteDrop (utf8Len (c :: cs.takeWhile (fun next => isAn next || next = '-'))) S
        = some (cs.dropWhile (fun next => isAn next || next = '-'))) := by
  refine ⟨?_, ?_, ?_⟩
  · intro c cs h
    subst h
    simpa [utf8Len] using byteDrop_append [c] cs
  · intro n next h
    obtain ⟨b, hb, hlen⟩ := byteTake_some S n next h
    refine ⟨b, ?_, hb⟩
    rw [hb, ← hlen]
    exact byteDrop_append _ _
  · intro isAn c cs h
    subst h
    have hsplit : c :: cs
        = (c :: cs.takeWhile (fun next => isAn next || next = '-'))
          ++ cs.dropWhile (fun next => isAn next || next = '-') := by
      simp [List.takeWhile_append_dropWhile]
    rw [hsplit]
    exact byteDrop_append _ _

/-- Witness for C10 at a concrete input: dropping the four bytes of `'😎'`
from `"😎x"` is a valid boundary slice leaving `"x"`. -/
theorem no_slice_panic_witness :
    byteDrop (Char.utf8Size '😎') ['😎', 'x'] = some ['x'] :=
  (no_slice_panic ['😎', 'x']).1 '😎' ['x'] rfl

end ParserLib
